import Mathlib

set_option maxRecDepth 8000

/-!
Verification of the rss-news-fetch pipeline: the archive data model, the
merge-and-deduplicate algorithm, the time-windowed reprocessing scan, the
extractor dispatch and the summarization threshold, shallowly embedded from
`src/rss_processor.py`, `src/script.py` and `src/bak_script.py`.

External effects (HTTP page fetch, the summarization API call) are passed in
as oracle functions: an extraction oracle of type
`Capability → String → Option String` stands for the outcome of running a
site-specific extractor on a URL, and an api oracle of type
`String → Option String` stands for the outcome of the external summarization
request (`none` = any failure).  Timestamps are epoch seconds as `Int`;
nullable columns are `Option`.
-/

/-- One archive row, the column set built by `process_entry` in
`src/rss_processor.py` (lines 50-61): `source`, `title`, `link`, `utc_time`,
`eastern_time`, `description`, `content`, `guid`, `if_summ`, `summary`.
`utc_time` and `eastern_time` are instants (epoch seconds); `if_summ` is the
processed flag. -/
@[ext]
structure NewsRecord where
  source : String
  title : String
  link : String
  utc_time : Option Int
  eastern_time : Option Int
  description : String
  content : Option String
  guid : String
  if_summ : Bool
  summary : Option String
deriving DecidableEq

/-- Boolean test that a record carries the given title, the comparison done by
`drop_duplicates(subset=['title'])` in `src/rss_processor.py` line 91. -/
def sameTitle (t : String) (s : NewsRecord) : Bool :=
  s.title == t

/-- Semantics of pandas `drop_duplicates(subset=['title'], keep='last')`
(`src/rss_processor.py` line 91): a row is dropped exactly when a later row
has the same title; kept rows stay in their original order. -/
def dedupKeepLast : List NewsRecord → List NewsRecord
  | [] => []
  | r :: rs =>
    if rs.any (sameTitle r.title) then dedupKeepLast rs
    else r :: dedupKeepLast rs

/-- `merge_with_archive` in `src/rss_processor.py` (lines 84-99): when an
archive exists (`some archive_df`), concatenate archive then new batch and
deduplicate by title keeping the last occurrence; when no archive exists
(first run), return the new batch unchanged. -/
def merge_with_archive (existingArchive : Option (List NewsRecord))
    (new_df : List NewsRecord) : List NewsRecord :=
  match existingArchive with
  | some archive_df => dedupKeepLast (archive_df ++ new_df)
  | none => new_df

/-- The last row of `l` carrying title `t` (pandas keeps exactly this row's
field values under `keep='last'`). -/
def lastWithTitle (t : String) (l : List NewsRecord) : Option NewsRecord :=
  (l.filter (sameTitle t)).getLast?

/-- The reprocessing-window mask of `process_links` (`src/script.py`
lines 104-107): the published instant is at or after `now - window` and the
processed flag is false.  A null instant compares false, which is pandas
`NaT >= threshold` semantics, and matches the explicit `notna` guard of the
variant in `src/bak_script.py` lines 181-186. -/
def inWindowUnprocessed (now window : Int) (r : NewsRecord) : Bool :=
  (match r.eastern_time with
   | some t => decide (now - window ≤ t)
   | none => false) && !r.if_summ

/-- The row selection of `process_links` (`src/script.py` line 108):
`archive_df.loc[mask]`, i.e. the rows satisfying the window mask, in archive
order. -/
def selectWindow (archive : List NewsRecord) (now window : Int) :
    List NewsRecord :=
  archive.filter (inWindowUnprocessed now window)

/-- The three site-specific extractors that `url_matcher` can return
(`src/script.py`, helper section). -/
inductive Capability where
  | extract_yahoo_content
  | extract_cnbc_content
  | extract_insider_content
deriving DecidableEq

/-- Boolean test that `s` starts with `pre`, the semantics of python
`url.startswith(pre)`. -/
def strStartsWith (s pre : String) : Bool :=
  pre.toList.isPrefixOf s.toList

/-- Boolean substring test, the semantics of python `needle in url`. -/
def strContains (needle hay : String) : Bool :=
  decide (needle.toList <:+: hay.toList)

/-- `url_matcher` in `src/script.py` (lines 127-136): Yahoo Finance
article-path prefix test first, then the CNBC substring test, then the
Business Insider substring test; first match wins, else none. -/
def url_matcher (url : String) : Option Capability :=
  if strStartsWith url "https://finance.yahoo.com/news/"
      || strStartsWith url "http://finance.yahoo.com/news/" then
    some Capability.extract_yahoo_content
  else if strContains "cnbc.com/202" url then
    some Capability.extract_cnbc_content
  else if strContains "businessinsider.com" url then
    some Capability.extract_insider_content
  else
    none

/-- The ordered (predicate, capability) registry that `url_matcher`'s
conditional chain realises. -/
def matcherTable : List ((String → Bool) × Capability) :=
  [(fun url => strStartsWith url "https://finance.yahoo.com/news/"
      || strStartsWith url "http://finance.yahoo.com/news/",
    Capability.extract_yahoo_content),
   (fun url => strContains "cnbc.com/202" url,
    Capability.extract_cnbc_content),
   (fun url => strContains "businessinsider.com" url,
    Capability.extract_insider_content)]

/-- Evaluate an ordered registry of (predicate, capability) pairs and return
the first match. -/
def firstMatch : List ((String → Bool) × Capability) → String → Option Capability
  | [], _ => none
  | (p, c) :: rest, url => if p url then some c else firstMatch rest url

/-- `generate_summary` in `src/bak_script.py` lines 13-45 (identical in
`src/script.py` lines 20-52): return `None` without touching the external
service when the text is falsy or shorter than 100 characters, otherwise the
outcome of the external call (`api`, `none` = request/format failure). -/
def generate_summary (api : String → Option String)
    (content : Option String) : Option String :=
  match content with
  | none => none
  | some c => if c = "" ∨ c.length < 100 then none else api c

/-- Whether `generate_summary` reaches the external service call: exactly when
the guard `not content or len(content) < 100` does not fire. -/
def generate_summary_invokes (content : Option String) : Bool :=
  match content with
  | none => false
  | some c => if c = "" ∨ c.length < 100 then false else true

/-- The `pd.Series` result of `enhanced_content_extraction`. -/
structure ExtractionResult where
  content : Option String
  summary : Option String
  if_summ : Bool
deriving DecidableEq

/-- `enhanced_content_extraction` in `src/bak_script.py` lines 51-70
(identical to the active path of `src/script.py` lines 58-85): pick the
extractor with `url_matcher`; content is the extractor outcome or `None`;
summarize only when content is truthy; the status flag is
`pd.notna(summary)`, i.e. summary non-null. -/
def enhanced_content_extraction (ex : Capability → String → Option String)
    (api : String → Option String) (row : NewsRecord) : ExtractionResult :=
  let content : Option String :=
    match url_matcher row.link with
    | some cap => ex cap row.link
    | none => none
  let summary : Option String :=
    match content with
    | some c => if c = "" then none else generate_summary api (some c)
    | none => none
  { content := content, summary := summary, if_summ := summary.isSome }

/-- Effect on one selected row of `to_process.update(result_cols)` followed by
the column assignment in `src/script.py` lines 113-118: pandas `update`
overwrites only non-null values, so a null new `content`/`summary` keeps the
old cell, while the boolean `if_summ` is always overwritten. -/
def updateRow (e : ExtractionResult) (r : NewsRecord) : NewsRecord :=
  { r with
    content := match e.content with | some c => some c | none => r.content,
    summary := match e.summary with | some s => some s | none => r.summary,
    if_summ := e.if_summ }

/-- The archive update performed by one run of `process_links`
(`src/script.py` lines 104-120): every row selected by the window mask is
overwritten in columns `content`, `summary`, `if_summ` with its
`enhanced_content_extraction` outcome (the assignment uses
`updated_mask.index`, the index of all selected rows); unselected rows are
untouched. -/
def process_links (ex : Capability → String → Option String)
    (api : String → Option String) (now window : Int)
    (archive_df : List NewsRecord) : List NewsRecord :=
  archive_df.map (fun r =>
    if inWindowUnprocessed now window r then
      updateRow (enhanced_content_extraction ex api r) r
    else r)

/-- One update cell of `applyUpdates`: replacement values for `content`,
`summary`, `if_summ` of one row. -/
structure RecordUpdate where
  content : Option String
  summary : Option String
  if_summ : Bool
deriving DecidableEq

/-- Helper for `applyUpdates`, walking the archive with the running row
index. -/
def applyUpdatesFrom (updates : Nat → Option RecordUpdate) :
    Nat → List NewsRecord → List NewsRecord
  | _, [] => []
  | i, r :: rs =>
    (match updates i with
     | some u =>
       { r with content := u.content, summary := u.summary,
                if_summ := u.if_summ }
     | none => r) :: applyUpdatesFrom updates (i + 1) rs

/-- The column assignment
`archive_df.loc[idx, ['content','summary','if_summ']] = ...` of
`src/script.py` line 118, as a map from row indices to optional update cells:
rows with an update cell get exactly the three columns overwritten, all other
rows and all other columns are untouched. -/
def applyUpdates (archive : List NewsRecord)
    (updates : Nat → Option RecordUpdate) : List NewsRecord :=
  applyUpdatesFrom updates 0 archive

/-- Sample archived record that has been through extraction and
summarization: processed flag set, content and summary filled in. -/
def procRec : NewsRecord :=
  { source := "Yahoo Finance", title := "t",
    link := "https://finance.yahoo.com/news/x", utc_time := some 0,
    eastern_time := some 0, description := "", content := some "full body",
    guid := "g1", if_summ := true, summary := some "digest" }

/-- Sample freshly fetched record with the same title as `procRec`, exactly
as `process_entry` builds it: processed flag false, no summary. -/
def freshRec : NewsRecord :=
  { source := "Yahoo Finance", title := "t",
    link := "https://finance.yahoo.com/news/x", utc_time := some 10,
    eastern_time := some 10, description := "", content := some "",
    guid := "g1", if_summ := false, summary := none }

/-- Sample record whose URL matches no extractor predicate. -/
def unknownRec : NewsRecord :=
  { source := "Other", title := "u",
    link := "https://example.com/unknown-site/x", utc_time := some 0,
    eastern_time := some 0, description := "", content := none,
    guid := "g2", if_summ := false, summary := none }

/-- Sample unprocessed record published five hours before the instant
1000000. -/
def rec5h : NewsRecord :=
  { source := "CNBC", title := "w", link := "https://example.com/w",
    utc_time := some 982000, eastern_time := some 982000, description := "",
    content := none, guid := "g3", if_summ := false, summary := none }

/-- Extraction oracle that always yields a short article body. -/
def shortOracle : Capability → String → Option String :=
  fun _ _ => some "short body"

/-- Summarization oracle standing for an external service that always
succeeds. -/
def digestApi : String → Option String :=
  fun _ => some "digest"

/-- A text of exactly 100 characters. -/
def hundredChars : String :=
  String.mk (List.replicate 100 'a')

/-- Sample update mapping touching only row 0. -/
def exampleUpdates : Nat → Option RecordUpdate :=
  fun i => if i = 0 then
    some { content := some "new body", summary := some "new digest",
           if_summ := true }
  else none

/-! ## Properties of the merge-and-deduplicate algorithm -/

theorem dedupKeepLast_sublist (l : List NewsRecord) :
    (dedupKeepLast l).Sublist l := by
  induction l with
  | nil => simp [dedupKeepLast]
  | cons r rs ih =>
    simp only [dedupKeepLast]
    split
    · exact ih.trans (List.sublist_cons_self r rs)
    · exact ih.cons₂ r

theorem mem_of_mem_dedupKeepLast {r : NewsRecord} {l : List NewsRecord}
    (h : r ∈ dedupKeepLast l) : r ∈ l :=
  (dedupKeepLast_sublist l).subset h

theorem lastWithTitle_of_mem_dedupKeepLast {r : NewsRecord} :
    ∀ {l : List NewsRecord}, r ∈ dedupKeepLast l →
      lastWithTitle r.title l = some r := by
  intro l
  induction l with
  | nil => simp [dedupKeepLast]
  | cons a rs ih =>
    intro hmem
    simp only [dedupKeepLast] at hmem
    by_cases hany : rs.any (sameTitle a.title) = true
    · rw [if_pos hany] at hmem
      have hlast := ih hmem
      unfold lastWithTitle at hlast ⊢
      rw [List.filter_cons]
      by_cases hat : sameTitle r.title a = true
      · rw [if_pos hat]
        cases hfil : List.filter (sameTitle r.title) rs with
        | nil => rw [hfil] at hlast; simp at hlast
        | cons b bs =>
          rw [hfil] at hlast
          rw [List.getLast?_cons_cons]
          exact hlast
      · rw [if_neg hat]
        exact hlast
    · rw [if_neg hany] at hmem
      have hanyf : rs.any (sameTitle a.title) = false :=
        Bool.eq_false_iff.mpr hany
      rcases List.mem_cons.mp hmem with heq | hmem2
      · subst heq
        unfold lastWithTitle
        rw [List.filter_cons, if_pos (by simp [sameTitle])]
        have hfil : List.filter (sameTitle r.title) rs = [] := by
          rw [List.filter_eq_nil_iff]
          intro x hx
          have := (List.any_eq_false.mp hanyf) x hx
          simpa [sameTitle] using this
        rw [hfil]
        rfl
      · have hrrs : r ∈ rs := mem_of_mem_dedupKeepLast hmem2
        have hne : sameTitle r.title a = false := by
          have h1 := (List.any_eq_false.mp hanyf) r hrrs
          simp only [sameTitle, beq_iff_eq] at h1
          simp only [sameTitle, beq_eq_false_iff_ne]
          exact fun e => h1 e.symm
        unfold lastWithTitle
        rw [List.filter_cons, if_neg (by simp [hne])]
        exact ih hmem2

theorem exists_title_mem_dedupKeepLast :
    ∀ {l : List NewsRecord} {s : NewsRecord}, s ∈ l →
      ∃ r, r ∈ dedupKeepLast l ∧ r.title = s.title := by
  intro l
  induction l with
  | nil => intro s hs; simp at hs
  | cons a rs ih =>
    intro s hs
    simp only [dedupKeepLast]
    by_cases hany : rs.any (sameTitle a.title) = true
    · rw [if_pos hany]
      rcases List.mem_cons.mp hs with heq | hmem
      · rcases List.any_eq_true.mp hany with ⟨x, hx, hpx⟩
        have hxt : x.title = a.title := by
          simpa [sameTitle] using hpx
        rcases ih hx with ⟨r, hr, hrt⟩
        exact ⟨r, hr, by rw [hrt, hxt, heq]⟩
      · exact ih hmem
    · rw [if_neg hany]
      rcases List.mem_cons.mp hs with heq | hmem
      · exact ⟨a, List.mem_cons_self a _, by rw [heq]⟩
      · rcases ih hmem with ⟨r, hr, hrt⟩
        exact ⟨r, List.mem_cons_of_mem _ hr, hrt⟩

theorem dedupKeepLast_pairwise (l : List NewsRecord) :
    (dedupKeepLast l).Pairwise (fun x y => x.title ≠ y.title) := by
  induction l with
  | nil => simp [dedupKeepLast]
  | cons a rs ih =>
    simp only [dedupKeepLast]
    by_cases hany : rs.any (sameTitle a.title) = true
    · rw [if_pos hany]; exact ih
    · rw [if_neg hany]
      refine List.Pairwise.cons (fun y hy hteq => ?_) ih
      have hyrs : y ∈ rs := mem_of_mem_dedupKeepLast hy
      exact hany (List.any_eq_true.mpr ⟨y, hyrs, by simp [sameTitle, hteq]⟩)

theorem any_dedupKeepLast_eq_false {l : List NewsRecord}
    {p : NewsRecord → Bool} (h : l.any p = false) :
    (dedupKeepLast l).any p = false := by
  rw [List.any_eq_false] at h ⊢
  exact fun x hx => h x (mem_of_mem_dedupKeepLast hx)

theorem dedupKeepLast_append_of_titles_covered :
    ∀ {M N : List NewsRecord}, (∀ x ∈ M, ∃ y ∈ N, y.title = x.title) →
      dedupKeepLast (M ++ N) = dedupKeepLast N := by
  intro M
  induction M with
  | nil => intro N _; rfl
  | cons a Ms ih =>
    intro N h
    have hc : (Ms ++ N).any (sameTitle a.title) = true := by
      rcases h a (List.mem_cons_self a _) with ⟨y, hy, hyt⟩
      exact List.any_eq_true.mpr
        ⟨y, List.mem_append_right _ hy, by simp [sameTitle, hyt]⟩
    show dedupKeepLast (a :: (Ms ++ N)) = dedupKeepLast N
    simp only [dedupKeepLast, hc, if_true]
    exact ih (fun x hx => h x (List.mem_cons_of_mem _ hx))

theorem dedupKeepLast_idem_append (M : List NewsRecord) :
    ∀ L : List NewsRecord,
      dedupKeepLast (dedupKeepLast L ++ M) = dedupKeepLast (L ++ M) := by
  intro L
  induction L with
  | nil => rfl
  | cons a Ls ih =>
    cases hb : Ls.any (sameTitle a.title) with
    | true =>
      have e1 : dedupKeepLast (a :: Ls) = dedupKeepLast Ls := by
        simp only [dedupKeepLast, hb, if_true]
      have h2 : (Ls ++ M).any (sameTitle a.title) = true := by
        rw [List.any_append, hb, Bool.true_or]
      calc dedupKeepLast (dedupKeepLast (a :: Ls) ++ M)
          = dedupKeepLast (dedupKeepLast Ls ++ M) := by rw [e1]
        _ = dedupKeepLast (Ls ++ M) := ih
        _ = dedupKeepLast ((a :: Ls) ++ M) := by
            show _ = dedupKeepLast (a :: (Ls ++ M))
            simp only [dedupKeepLast, h2, if_true]
    | false =>
      have e1 : dedupKeepLast (a :: Ls) = a :: dedupKeepLast Ls := by
        simp [dedupKeepLast, hb]
      have hdf : (dedupKeepLast Ls).any (sameTitle a.title) = false :=
        any_dedupKeepLast_eq_false hb
      have hcond : (dedupKeepLast Ls ++ M).any (sameTitle a.title)
          = (Ls ++ M).any (sameTitle a.title) := by
        rw [List.any_append, List.any_append, hdf, hb]
      rw [e1]
      show dedupKeepLast (a :: (dedupKeepLast Ls ++ M))
          = dedupKeepLast (a :: (Ls ++ M))
      simp only [dedupKeepLast, hcond, ih]

theorem dedupKeepLast_append_double (B : List NewsRecord) :
    ∀ Z : List NewsRecord,
      dedupKeepLast (Z ++ (B ++ B)) = dedupKeepLast (Z ++ B) := by
  intro Z
  induction Z with
  | nil =>
    show dedupKeepLast (B ++ B) = dedupKeepLast B
    exact dedupKeepLast_append_of_titles_covered (fun x hx => ⟨x, hx, rfl⟩)
  | cons a Zs ih =>
    show dedupKeepLast (a :: (Zs ++ (B ++ B)))
        = dedupKeepLast (a :: (Zs ++ B))
    have hc : (Zs ++ (B ++ B)).any (sameTitle a.title)
        = (Zs ++ B).any (sameTitle a.title) := by
      simp [List.any_append]
    simp only [dedupKeepLast, hc, ih]

/-- Claim C1: for every existing archive and every incoming batch, merge
returns the concatenation of existing then incoming records deduplicated by
title keeping the last occurrence: the result is a subsequence of the
concatenation (post-concatenation insertion order), each surviving record
equals the latest-inserted record with its title, every title of the
concatenation survives, and no two survivors share a title. -/
theorem C1_merge_dedup_last_write_wins (a inc : List NewsRecord) :
    merge_with_archive (some a) inc = dedupKeepLast (a ++ inc)
    ∧ (merge_with_archive (some a) inc).Sublist (a ++ inc)
    ∧ (∀ r, r ∈ merge_with_archive (some a) inc →
        lastWithTitle r.title (a ++ inc) = some r)
    ∧ (∀ s, s ∈ a ++ inc →
        ∃ r, r ∈ merge_with_archive (some a) inc ∧ r.title = s.title)
    ∧ (merge_with_archive (some a) inc).Pairwise
        (fun x y => x.title ≠ y.title) := by
  refine ⟨rfl, dedupKeepLast_sublist _, ?_, ?_, dedupKeepLast_pairwise _⟩
  · intro r hr
    exact lastWithTitle_of_mem_dedupKeepLast hr
  · intro s hs
    exact exists_title_mem_dedupKeepLast hs

theorem C1_witness :
    lastWithTitle freshRec.title ([procRec] ++ [freshRec]) = some freshRec :=
  (C1_merge_dedup_last_write_wins [procRec] [freshRec]).2.2.1 freshRec
    (by decide)

/-- Claim C4: merge is idempotent in its incoming batch: merging the same
batch into an archive twice yields the same archive, record for record and
in the same order. -/
theorem C4_merge_idempotent (A B : List NewsRecord) :
    merge_with_archive (some (merge_with_archive (some A) B)) B
      = merge_with_archive (some A) B := by
  show dedupKeepLast (dedupKeepLast (A ++ B) ++ B) = dedupKeepLast (A ++ B)
  rw [dedupKeepLast_idem_append B (A ++ B), List.append_assoc,
    dedupKeepLast_append_double B A]

/-! ## Properties of the reprocessing window and the archive update -/

/-- Claim C3: selectWindow returns exactly the archive records with a
non-null published instant at or after now - window and an unset processed
flag; a record published five hours before now is selected under a 24h
window and excluded under a 4h window; a record with a null published
instant is never selected for any window. -/
theorem C3_selectWindow_window (archive : List NewsRecord) (now window : Int)
    (r : NewsRecord) :
    (r ∈ selectWindow archive now window ↔
      r ∈ archive ∧ ∃ t, r.eastern_time = some t ∧ now - window ≤ t
        ∧ r.if_summ = false)
    ∧ (r.eastern_time = some (now - 5 * 3600) → r.if_summ = false →
        r ∈ selectWindow [r] now (24 * 3600)
          ∧ r ∉ selectWindow [r] now (4 * 3600))
    ∧ (r.eastern_time = none → ∀ w : Int, r ∉ selectWindow [r] now w) := by
  refine ⟨?_, ?_, ?_⟩
  · rw [selectWindow, List.mem_filter]
    constructor
    · rintro ⟨hmem, hmask⟩
      refine ⟨hmem, ?_⟩
      unfold inWindowUnprocessed at hmask
      cases het : r.eastern_time with
      | none => rw [het] at hmask; simp at hmask
      | some t =>
        rw [het] at hmask
        simp only [Bool.and_eq_true, decide_eq_true_eq,
          Bool.not_eq_true'] at hmask
        exact ⟨t, rfl, hmask.1, hmask.2⟩
    · rintro ⟨hmem, t, het, hle, hproc⟩
      refine ⟨hmem, ?_⟩
      unfold inWindowUnprocessed
      rw [het, hproc]
      simp [hle]
  · intro het hproc
    constructor
    · rw [selectWindow, List.mem_filter]
      refine ⟨List.mem_singleton.mpr rfl, ?_⟩
      unfold inWindowUnprocessed
      rw [het, hproc]
      simp only [Bool.not_false, Bool.and_true, decide_eq_true_eq]
      omega
    · rw [selectWindow, List.mem_filter]
      rintro ⟨_, hmask⟩
      unfold inWindowUnprocessed at hmask
      rw [het, hproc] at hmask
      simp only [Bool.not_false, Bool.and_true, decide_eq_true_eq] at hmask
      omega
  · intro het w
    rw [selectWindow, List.mem_filter]
    rintro ⟨_, hmask⟩
    unfold inWindowUnprocessed at hmask
    rw [het] at hmask
    simp at hmask

theorem C3_witness :
    rec5h ∈ selectWindow [rec5h] 1000000 (24 * 3600)
    ∧ rec5h ∉ selectWindow [rec5h] 1000000 (4 * 3600) :=
  (C3_selectWindow_window [rec5h] 1000000 777 rec5h).2.1 (by decide) rfl

/-- Claim C5 as amended: within a run, selectWindow only ever returns
records whose processed flag is false, and the update step of process_links
leaves every processed record untouched (it never resets a processed flag to
false); the merge step, however, may replace a processed record with an
incoming unprocessed record of the same title (see the counterexample). -/
theorem C5_processed_within_run (A : List NewsRecord)
    (ex : Capability → String → Option String) (api : String → Option String)
    (now window : Int) (i : Nat) :
    (∀ r ∈ selectWindow A now window, r.if_summ = false)
    ∧ (process_links ex api now window A).length = A.length
    ∧ (∀ s, A[i]? = some s → s.if_summ = true →
        (process_links ex api now window A)[i]? = some s) := by
  refine ⟨?_, by simp [process_links], ?_⟩
  · intro r hr
    have hmask := (List.mem_filter.mp hr).2
    unfold inWindowUnprocessed at hmask
    simp only [Bool.and_eq_true, Bool.not_eq_true'] at hmask
    exact hmask.2
  · intro s hs hproc
    rw [process_links, List.getElem?_map, hs]
    simp [inWindowUnprocessed, hproc]

/-- Claim C5, the claim as frozen, is false on the code: a record processed
at the start of a run is replaced by the merge step with an incoming
unprocessed record of the same title, which selectWindow then returns. -/
theorem C5_counterexample :
    procRec.if_summ = true
    ∧ freshRec.title = procRec.title
    ∧ freshRec.if_summ = false
    ∧ merge_with_archive (some [procRec]) [freshRec] = [freshRec]
    ∧ selectWindow (merge_with_archive (some [procRec]) [freshRec]) 100 86400
        = [freshRec] := by
  decide

theorem C5_witness :
    (process_links shortOracle digestApi 100 3600 [procRec])[0]?
      = some procRec :=
  (C5_processed_within_run [procRec] shortOracle digestApi 100 3600 0).2.2
    procRec rfl rfl

theorem applyUpdatesFrom_length (updates : Nat → Option RecordUpdate) :
    ∀ (k : Nat) (l : List NewsRecord),
      (applyUpdatesFrom updates k l).length = l.length := by
  intro k l
  induction l generalizing k with
  | nil => rfl
  | cons r rs ih => simp [applyUpdatesFrom, ih]

theorem applyUpdatesFrom_getElem (updates : Nat → Option RecordUpdate) :
    ∀ (l : List NewsRecord) (k i : Nat),
      (applyUpdatesFrom updates k l)[i]? = (l[i]?).map (fun r =>
        match updates (k + i) with
        | some u =>
          { r with content := u.content, summary := u.summary,
                   if_summ := u.if_summ }
        | none => r) := by
  intro l
  induction l with
  | nil => intro k i; rfl
  | cons r rs ih =>
    intro k i
    cases i with
    | zero => simp [applyUpdatesFrom]
    | succ j =>
      simp only [applyUpdatesFrom, List.getElem?_cons_succ]
      rw [show k + (j + 1) = (k + 1) + j from by omega]
      exact ih (k + 1) j

/-- Claim C6: applyUpdates is framed: it preserves length; a row without an
update cell is unchanged; a row with an update cell gets exactly its
content, summary and processed columns overwritten, all other fields coming
from the old row. -/
theorem C6_applyUpdates_frame (archive : List NewsRecord)
    (updates : Nat → Option RecordUpdate) (i : Nat) :
    (applyUpdates archive updates).length = archive.length
    ∧ (updates i = none →
        (applyUpdates archive updates)[i]? = archive[i]?)
    ∧ (∀ u, updates i = some u →
        (applyUpdates archive updates)[i]? = (archive[i]?).map (fun r =>
          { r with content := u.content, summary := u.summary,
                   if_summ := u.if_summ })) := by
  refine ⟨applyUpdatesFrom_length updates 0 archive, ?_, ?_⟩
  · intro h
    rw [applyUpdates, applyUpdatesFrom_getElem updates archive 0 i]
    simp only [Nat.zero_add, h]
    cases archive[i]? <;> rfl
  · intro u h
    rw [applyUpdates, applyUpdatesFrom_getElem updates archive 0 i]
    simp only [Nat.zero_add, h]

theorem C6_witness :
    (applyUpdates [procRec] exampleUpdates)[0]?
      = ([procRec][0]?).map (fun r =>
        { r with content := some "new body", summary := some "new digest",
                 if_summ := true }) :=
  (C6_applyUpdates_frame [procRec] exampleUpdates 0).2.2
    { content := some "new body", summary := some "new digest",
      if_summ := true } rfl

/-! ## Extraction, dispatch and summarization -/

/-- Claim C2, the claim as frozen, is false on the code: a row whose
extractor yields a short non-null body has non-null content yet the
processed flag stays false, because the flag is set from the summary, not
from the content. -/
theorem C2_counterexample :
    (enhanced_content_extraction shortOracle digestApi freshRec).content.isSome
      = true
    ∧ (enhanced_content_extraction shortOracle digestApi freshRec).if_summ
      = false := by
  decide

/-- Claim C2 as amended: after the extraction-and-summarization step the
processed flag is true iff summarization produced a non-null summary (not
iff content extraction succeeded); a non-null summary does imply non-null
content. -/
theorem C2_processed_iff_summary (ex : Capability → String → Option String)
    (api : String → Option String) (row : NewsRecord) :
    (enhanced_content_extraction ex api row).if_summ
        = (enhanced_content_extraction ex api row).summary.isSome
    ∧ ((enhanced_content_extraction ex api row).summary.isSome = true →
        (enhanced_content_extraction ex api row).content.isSome = true) := by
  refine ⟨rfl, ?_⟩
  unfold enhanced_content_extraction
  cases url_matcher row.link with
  | none => simp
  | some cap =>
    cases hec : ex cap row.link with
    | none => simp [hec]
    | some c => simp [hec]

theorem C2_witness :
    (enhanced_content_extraction shortOracle digestApi freshRec).if_summ
      = (enhanced_content_extraction shortOracle digestApi freshRec).summary.isSome :=
  (C2_processed_iff_summary shortOracle digestApi freshRec).1

/-- Claim C7: extractor dispatch is deterministic and order-fixed: two calls
on the same URL agree, and url_matcher equals the first match of the ordered
registry (Yahoo Finance prefix test, then CNBC substring test, then
Business Insider substring test), none when no predicate matches. -/
theorem C7_dispatch_first_match (url : String) :
    url_matcher url = url_matcher url
    ∧ url_matcher url = firstMatch matcherTable url :=
  ⟨rfl, rfl⟩

theorem updateRow_none_noop (r : NewsRecord) (hp : r.if_summ = false) :
    updateRow { content := none, summary := none, if_summ := false } r = r := by
  unfold updateRow
  ext <;> simp [hp]

/-- Claim C8: for a selected record whose URL matches no extractor
predicate, the extraction step yields null content, null summary and a
false processed flag, and any number of repeated runs of the update step
leave the record exactly as it was: never marked processed, with no error
outcome. -/
theorem C8_no_match_skip (ex : Capability → String → Option String)
    (api : String → Option String) (now window : Int) (r : NewsRecord)
    (hm : url_matcher r.link = none) (hp : r.if_summ = false) :
    (enhanced_content_extraction ex api r).content = none
    ∧ (enhanced_content_extraction ex api r).summary = none
    ∧ (enhanced_content_extraction ex api r).if_summ = false
    ∧ ∀ n : Nat, (process_links ex api now window)^[n] [r] = [r] := by
  have hex : enhanced_content_extraction ex api r
      = { content := none, summary := none, if_summ := false } := by
    unfold enhanced_content_extraction
    rw [hm]
    rfl
  refine ⟨by rw [hex], by rw [hex], by rw [hex], ?_⟩
  have hone : process_links ex api now window [r] = [r] := by
    unfold process_links
    simp only [List.map]
    by_cases hc : inWindowUnprocessed now window r = true
    · rw [if_pos hc, hex, updateRow_none_noop r hp]
    · rw [if_neg hc]
  intro n
  induction n with
  | zero => rfl
  | succ m ihm => rw [Function.iterate_succ_apply, hone, ihm]

theorem C8_witness :
    (enhanced_content_extraction shortOracle digestApi unknownRec).content
      = none
    ∧ (process_links shortOracle digestApi 100 3600)^[2] [unknownRec]
      = [unknownRec] :=
  ⟨(C8_no_match_skip shortOracle digestApi 100 3600 unknownRec (by decide)
      rfl).1,
   (C8_no_match_skip shortOracle digestApi 100 3600 unknownRec (by decide)
      rfl).2.2.2 2⟩

/-- Claim C9, the claim as frozen, is false on the code at a text of exactly
100 characters: the guard is a strict less-than, so a 100-character text
reaches the external service and can produce a summary, while the claim
says texts not exceeding 100 characters are skipped. -/
theorem C9_counterexample :
    hundredChars.length = 100
    ∧ generate_summary_invokes (some hundredChars) = true
    ∧ generate_summary digestApi (some hundredChars) = some "digest" := by
  refine ⟨by decide, by decide, by decide⟩

/-- Claim C9 as amended: generate_summary skips the external service and
returns no summary for null text and for any text shorter than 100
characters (not a failure, just no summary); the service is invoked exactly
for texts of length at least 100. -/
theorem C9_summary_threshold (api : String → Option String) (c : String) :
    generate_summary api none = none
    ∧ generate_summary_invokes none = false
    ∧ (c.length < 100 →
        generate_summary api (some c) = none
          ∧ generate_summary_invokes (some c) = false)
    ∧ (generate_summary_invokes (some c) = false →
        generate_summary api (some c) = none)
    ∧ (generate_summary_invokes (some c) = true ↔ 100 ≤ c.length) := by
  refine ⟨rfl, rfl, ?_, ?_, ?_⟩
  · intro h
    constructor <;> simp [generate_summary, generate_summary_invokes, h]
  · intro h
    change (if c = "" ∨ c.length < 100 then false else true) = false at h
    show (if c = "" ∨ c.length < 100 then none else api c) = none
    by_cases hc : c = "" ∨ c.length < 100
    · rw [if_pos hc]
    · rw [if_neg hc] at h
      exact absurd h (by simp)
  · show (if c = "" ∨ c.length < 100 then false else true) = true
        ↔ 100 ≤ c.length
    by_cases hc : c = "" ∨ c.length < 100
    · rw [if_pos hc]
      constructor
      · intro h
        cases h
      · intro h
        rcases hc with hc | hc
        · rw [hc] at h
          exact absurd h (by decide)
        · omega
    · rw [if_neg hc]
      push_neg at hc
      constructor
      · intro _
        exact hc.2
      · intro _
        rfl

theorem C9_witness :
    generate_summary digestApi (some "short") = none
    ∧ generate_summary_invokes (some "short") = false :=
  (C9_summary_threshold digestApi "short").2.2.1 (by decide)

/-- Claim C10: on a first run (no existing archive) merge returns the
incoming batch unchanged with no deduplication, so two same-title records in
the batch both survive; the duplicate is collapsed only on a later run, when
an existing archive is merged. -/
theorem C10_first_run_no_dedup (inc : List NewsRecord) (r1 r2 : NewsRecord)
    (h : r1.title = r2.title) :
    merge_with_archive none inc = inc
    ∧ merge_with_archive none [r1, r2] = [r1, r2]
    ∧ merge_with_archive (some [r1, r2]) [] = [r2] := by
  refine ⟨rfl, rfl, ?_⟩
  show dedupKeepLast ([r1, r2] ++ []) = [r2]
  simp only [List.append_nil]
  have hone : [r2].any (sameTitle r1.title) = true := by
    simp [sameTitle, h]
  simp [dedupKeepLast, hone]

theorem C10_witness :
    merge_with_archive none [procRec, freshRec] = [procRec, freshRec]
    ∧ merge_with_archive (some [procRec, freshRec]) [] = [freshRec] :=
  ⟨(C10_first_run_no_dedup [procRec, freshRec] procRec freshRec rfl).2.1,
   (C10_first_run_no_dedup [procRec, freshRec] procRec freshRec rfl).2.2⟩
